import Mathlib

/-!
Verification of the crawl engine of the `web_scraper_v2` repository.

The development shallowly embeds the Python sources `src/scraper.py` and
`src/doc_scraper.py`.  The embedding keeps the source's control flow and
state updates; external libraries are abstracted into an `Env` record:

* `requests`/the network is a deterministic function from URL to one
  fetch outcome (`Env.net`);
* `urllib.robotparser`'s `RobotFileParser.read` for an origin either
  raises (modelled as `none`) or yields a parsed policy, a predicate on
  URLs (`Env.robots`);
* `validators.url` is an abstract predicate on URLs (`Env.validUrl`);
* BeautifulSoup parsing is abstracted: the anchors of an HTML body are
  `Env.anchors`, and the parsed document structure used by the
  documentation extractor is `Env.parse`; the repository loops that walk
  those parse results (`Scraper.extract_links`, `DocScraper.extract_headings`)
  are embedded concretely;
* `Scraper.extract_text_content` and `DocScraper.is_doc_site`
  (pure string-processing helpers whose internals no claim depends on)
  are abstracted as `Env.extractText` and `Env.isDocSite`.

URLs are modelled structurally (scheme, network location, path, query,
fragment) in the way `urllib.parse.urlparse` decomposes them; `none` and
`some ""` for query/fragment distinguish an absent component from an
empty one introduced by a bare `?`/`#`, mirroring the serialized string.

Rate limiting (`Scraper._rate_limit`) only sleeps and touches a wall
clock timestamp; it has no influence on any other state and is not
modelled.  The state carries a ghost log `gets` of the URLs for which an
HTTP GET was actually issued by `session.get`, used to state the
at-most-once-fetch property.
-/

/-- Structured URL, as decomposed by `urllib.parse.urlparse`:
scheme, netloc (host), path, optional query, optional fragment. -/
structure Url where
  scheme : String
  netloc : String
  path : String
  query : Option String
  fragment : Option String
deriving DecidableEq, Repr

/-- An anchor `href` attribute as it matters to `urljoin`: an absolute
URL, a same-document fragment reference `#s`, or a relative reference
(its resolved path is taken as given, abstracting the path arithmetic of
`urllib.parse.urljoin`). -/
inductive Href where
  | abs (u : Url)
  | frag (s : String)
  | rel (path : String) (query : Option String) (fragment : Option String)
deriving DecidableEq, Repr

/-- Embedding of `urllib.parse.urljoin(base, href)` on structured URLs.
A fragment-only reference keeps every component of the base (including
its query) and replaces the fragment; `urlunsplit` drops an empty
fragment, so `#` resolves to the base without a fragment. -/
def urljoin (base : Url) : Href → Url
  | .abs u => u
  | .frag s => if s = "" then { base with fragment := none }
               else { base with fragment := some s }
  | .rel p q f => { scheme := base.scheme, netloc := base.netloc,
                    path := p, query := q, fragment := f }

/-- The check `absolute_url.endswith('#')` in `Scraper.extract_links`:
on the serialized URL this holds exactly when the fragment component is
present but empty. -/
def endsWithHash (u : Url) : Bool :=
  u.fragment = some ""

/-- The substitution `re.sub(r'\?.*$', '', absolute_url)` in
`Scraper.extract_links`: on the serialized URL it deletes everything
from the first `?` on, so when a query is present the fragment is
removed with it. -/
def stripQuery (u : Url) : Url :=
  if u.query.isSome then { u with query := none, fragment := none } else u

/-- One result of `session.get`: a transport-level failure
(`requests.RequestException`) or a response with a status and body. -/
inductive NetResult where
  | error
  | resp (status : Nat) (body : String)
deriving Repr

/-- A heading tag as found by `soup.find_all` in
`DocScraper.extract_headings`: tag name, raw text, optional id. -/
structure Tag where
  name : String
  text : String
  id : Option String
deriving DecidableEq, Repr

/-- A heading record produced by `DocScraper.extract_headings`. -/
structure Heading where
  level : Nat
  text : String
  id : String
deriving DecidableEq, Repr

/-- A code block record (`DocScraper.extract_code_blocks` output). -/
structure CodeBlock where
  language : String
  content : String
deriving DecidableEq, Repr

/-- A table-of-contents entry (`DocScraper.extract_toc` output). -/
structure TocItem where
  text : String
  href : String
deriving DecidableEq, Repr

/-- The BeautifulSoup view of one HTML body that `DocScraper` reads:
the optional `<title>` text, the list of all tags (from which the
heading loop selects `h1`..`h6`), and the outputs of the code-block,
table-of-contents and article-content extractions, which are abstracted
as data of the parse. -/
structure Soup where
  title : Option String
  tags : List Tag
  code_blocks : List CodeBlock
  toc : List TocItem
  content : String

/-- The structured page record built by `DocScraper.scrape_single_page`. -/
structure PageData where
  url : Url
  title : String
  headings : List Heading
  code_blocks : List CodeBlock
  toc : List TocItem
  content : String

/-- The external world of one crawl: deterministic stand-ins for the
network and for the libraries the source calls. -/
structure Env where
  validUrl : Url → Bool
  robots : String → Option (Url → Bool)
  net : Url → NetResult
  anchors : String → List Href
  extractText : Url → String → Option (List String) → String
  parse : String → Soup
  isDocSite : Url → Bool

/-- Constructor-time configuration of a scraper instance
(`max_links`, `respect_robots`; the rate limit is not modelled). -/
structure Cfg where
  max_links : Nat
  respect_robots : Bool

/-- Mutable state of a scraper instance.  `page_structures` is only used
by `DocScraper`; `gets` is the ghost log of issued HTTP GETs. -/
structure St where
  visited : List Url
  all_links : List Url
  text_content : List (Url × String)
  robot_parsers : List (String × (Url → Bool))
  page_structures : List (Url × PageData)
  success_count : Nat
  failure_count : Nat
  gets : List Url

/-- Fresh scraper state, as set up by `Scraper.__init__` / `reset`. -/
def initSt : St :=
  { visited := [], all_links := [], text_content := [], robot_parsers := [],
    page_structures := [], success_count := 0, failure_count := 0, gets := [] }

/-- The origin `f"{parsed_url.scheme}://{parsed_url.netloc}"` used as the
robots-cache key in `Scraper._get_robot_parser`. -/
def origin (u : Url) : String :=
  u.scheme ++ "://" ++ u.netloc

/-- Serialization of a structured URL back to a string (used where the
source falls back to the URL itself, e.g. as a missing title). -/
def urlString (u : Url) : String :=
  u.scheme ++ "://" ++ u.netloc ++ u.path
    ++ (match u.query with | none => "" | some q => "?" ++ q)
    ++ (match u.fragment with | none => "" | some f => "#" ++ f)

/-- Python-dict insertion `m[k] = v`: replace in place if the key
exists, else append (dicts preserve insertion order). -/
def dictInsert {α : Type} (m : List (Url × α)) (k : Url) (v : α) : List (Url × α) :=
  if (m.map Prod.fst).contains k then
    m.map (fun p => if p.1 = k then (k, v) else p)
  else m ++ [(k, v)]

/-- Embedding of `Scraper._get_robot_parser`: `None` when robots
compliance is off; the per-origin cached policy when present; otherwise
read `<origin>/robots.txt` — on an exception return `None` without
caching, on success cache and return the parsed policy. -/
def getRobotParser (env : Env) (cfg : Cfg) (st : St) (url : Url) :
    St × Option (Url → Bool) :=
  if !cfg.respect_robots then (st, none)
  else
    let base := origin url
    match st.robot_parsers.lookup base with
    | some rp => (st, some rp)
    | none =>
      match env.robots base with
      | some rp => ({ st with robot_parsers := (base, rp) :: st.robot_parsers }, some rp)
      | none => (st, none)

/-- Embedding of `Scraper.can_fetch`: `True` when robots compliance is
off or no parser could be obtained; otherwise the parsed policy's
verdict for the URL. -/
def canFetch (env : Env) (cfg : Cfg) (st : St) (url : Url) : St × Bool :=
  if !cfg.respect_robots then (st, true)
  else
    match getRobotParser env cfg st url with
    | (st, none) => (st, true)
    | (st, some rp) => (st, rp url)

/-- Embedding of `Scraper.fetch_page`: robots check (a denial counts as
a failure), then one GET; `raise_for_status` turns a 4xx/5xx response
into a failure, as does a transport error; otherwise the success counter
is bumped and the body returned.  The issued GET is recorded in the
ghost log `gets`. -/
def fetchPage (env : Env) (cfg : Cfg) (st : St) (url : Url) : St × Option String :=
  match canFetch env cfg st url with
  | (st, ok) =>
    if !ok then ({ st with failure_count := st.failure_count + 1 }, none)
    else
      let st := { st with gets := st.gets ++ [url] }
      match env.net url with
      | .error => ({ st with failure_count := st.failure_count + 1 }, none)
      | .resp status body =>
        if 400 ≤ status ∧ status < 600 then
          ({ st with failure_count := st.failure_count + 1 }, none)
        else
          ({ st with success_count := st.success_count + 1 }, some body)

/-- Inner loop of `Scraper.extract_links`: resolve each href against the
page URL, optionally filter by netloc, keep valid URLs not ending in
`#`, strip the query, and append first occurrences to the accumulator. -/
def extractLinksGo (env : Env) (url : Url) (filterSameDomain : Bool) :
    List Href → List Url → List Url
  | [], links => links
  | href :: rest, links =>
    let absolute := urljoin url href
    if filterSameDomain ∧ absolute.netloc ≠ url.netloc then
      extractLinksGo env url filterSameDomain rest links
    else if env.validUrl absolute ∧ ¬ endsWithHash absolute then
      let base := stripQuery absolute
      if base ∈ links then extractLinksGo env url filterSameDomain rest links
      else extractLinksGo env url filterSameDomain rest (links ++ [base])
    else
      extractLinksGo env url filterSameDomain rest links

/-- Embedding of `Scraper.extract_links` over the anchors BeautifulSoup
finds in the HTML body. -/
def extractLinks (env : Env) (url : Url) (anchors : List Href)
    (filterSameDomain : Bool) : List Url :=
  extractLinksGo env url filterSameDomain anchors []

/-- Python `str.strip()` as used by `get_text(strip=True)`: drop
whitespace from both ends (structurally recursive model of the
stripping, so that concrete pages evaluate). -/
def pyStrip (s : String) : String :=
  ⟨((s.data.dropWhile Char.isWhitespace).reverse.dropWhile Char.isWhitespace).reverse⟩

/-- The heading level `int(tag.name[1])` for the tag names selected by
`find_all(['h1', .., 'h6'])`. -/
def headingLevel (name : String) : Nat :=
  if name = "h1" then 1 else if name = "h2" then 2 else if name = "h3" then 3
  else if name = "h4" then 4 else if name = "h5" then 5 else if name = "h6" then 6
  else 0

/-- The tag names `find_all(['h1', .., 'h6'])` selects. -/
def headingNames : List String := ["h1", "h2", "h3", "h4", "h5", "h6"]

/-- Embedding of `DocScraper.extract_headings`: walk all tags in
document order, keep `h1`..`h6`, strip the text, skip headings whose
stripped text is empty, default a missing id to `""`. -/
def extractHeadings : List Tag → List Heading
  | [] => []
  | t :: rest =>
    if t.name ∈ headingNames then
      let text := pyStrip t.text
      if text = "" then extractHeadings rest
      else { level := headingLevel t.name, text := text,
             id := t.id.getD "" } :: extractHeadings rest
    else extractHeadings rest

/-- Embedding of `DocScraper.scrape_single_page`: fetch the page (one
more GET), return `{}` (here `none`) on a falsy body, otherwise build
the structured record, store it in `page_structures`, and return it.
The title falls back to the URL string when the page has no `<title>`. -/
def scrapeSinglePage (env : Env) (cfg : Cfg) (st : St) (url : Url) :
    St × Option PageData :=
  match fetchPage env cfg st url with
  | (st, none) => (st, none)
  | (st, some html) =>
    if html = "" then (st, none)
    else
      let soup := env.parse html
      let title := (soup.title.map pyStrip).getD (urlString url)
      let headings := extractHeadings soup.tags
      let pd : PageData :=
        { url := url, title := title, headings := headings,
          code_blocks := soup.code_blocks, toc := soup.toc,
          content := soup.content }
      let st := { st with page_structures := dictInsert st.page_structures url pd }
      (st, some pd)

/-- The numbered code-example blocks written by
`DocScraper.format_page_content` (index `i` starts at 0, printed as
`i+1`). -/
def formatCodeBlocks : Nat → List CodeBlock → String
  | _, [] => ""
  | i, b :: rest =>
    "Example " ++ toString (i + 1) ++ " (" ++ b.language ++ "):\n"
      ++ "```\n" ++ b.content ++ "\n```\n\n"
      ++ formatCodeBlocks (i + 1) rest

/-- The rule line of 80 `═` characters used by the formatter. -/
def ruleLine : String := String.mk (List.replicate 80 '═')

/-- Embedding of `DocScraper.format_page_content`: empty string for an
empty record, otherwise a header, an optional table of contents, the
main content, and optional code examples. -/
def formatPageContent : Option PageData → String
  | none => ""
  | some pd =>
    let out := ruleLine ++ "\n" ++ "URL: " ++ urlString pd.url ++ "\n"
      ++ "TITLE: " ++ pd.title ++ "\n" ++ ruleLine ++ "\n\n"
    let out := if pd.toc ≠ [] then
        out ++ "TABLE OF CONTENTS\n" ++ "----------------\n"
          ++ String.join (pd.toc.map (fun item => "- " ++ item.text ++ "\n")) ++ "\n"
      else out
    let out := out ++ pd.content ++ "\n\n"
    if pd.code_blocks ≠ [] then
      out ++ "CODE EXAMPLES\n" ++ "-------------\n\n"
        ++ formatCodeBlocks 0 pd.code_blocks
    else out

/-- The `for link in links_to_visit` loop of `Scraper.scrape`
(src/scraper.py lines 350-369), parameterized by the recursive call
`rec` made at depth+1: skip visited links, stop at the link limit,
pre-record the link in `all_links`, then recurse into it. -/
def scrapeLoop (rec : St → Url → Option St) (cfg : Cfg) :
    St → List Url → Option St
  | st, [] => some st
  | st, link :: rest =>
    if link ∈ st.visited then scrapeLoop rec cfg st rest
    else if cfg.max_links ≤ st.all_links.length then some st
    else
      let st := if link ∈ st.all_links then st
                else { st with all_links := st.all_links ++ [link] }
      match rec st link with
      | none => none
      | some st => scrapeLoop rec cfg st rest

/-- One activation of `Scraper.scrape` (src/scraper.py lines 292-371),
with the recursive call abstracted as `rec`: admission checks (URL
validity, visited set, link limit), mark visited, fetch, store text
content, record the link, re-check the limit, extract links, and expand
them when the depth allows. -/
def scrapeBody (rec : St → Url → Option St) (env : Env) (cfg : Cfg)
    (st : St) (startUrl : Url) (currentDepth maxDepth : Nat)
    (filterSameDomain : Bool) (keywords : Option (List String)) : Option St :=
  if ¬ env.validUrl startUrl then some st
  else if startUrl ∈ st.visited then some st
  else if cfg.max_links ≤ st.all_links.length then some st
  else
    let st := { st with visited := st.visited ++ [startUrl] }
    match fetchPage env cfg st startUrl with
    | (st, none) => some st
    | (st, some html) =>
      if html = "" then some st
      else
        let st := { st with
          text_content := dictInsert st.text_content startUrl
            (env.extractText startUrl html keywords) }
        let st := if startUrl ∈ st.all_links then st
                  else { st with all_links := st.all_links ++ [startUrl] }
        if cfg.max_links ≤ st.all_links.length then some st
        else
          let links := extractLinks env startUrl (env.anchors html) filterSameDomain
          if currentDepth < maxDepth then scrapeLoop rec cfg st links
          else some st

/-- Fuelled embedding of the recursive `Scraper.scrape`.  Exhausted fuel
returns `none`; the recursion of the source is bounded by
`maxDepth - currentDepth`, so enough fuel always yields `some` (the
termination theorem below). -/
def scrapeF (env : Env) (cfg : Cfg) :
    Nat → St → Url → Nat → Nat → Bool → Option (List String) → Option St
  | 0, _, _, _, _, _, _ => none
  | fuel + 1, st, startUrl, currentDepth, maxDepth, fsd, kw =>
    scrapeBody (fun st' l => scrapeF env cfg fuel st' l (currentDepth + 1) maxDepth fsd kw)
      env cfg st startUrl currentDepth maxDepth fsd kw

/-- The `for link in sorted_links` loop of `DocScraper.scrape`
(src/doc_scraper.py lines 409-419): stop when the visited set reaches
the limit, otherwise recurse into each link at depth+1. -/
def docLoop (rec : St → Url → Option St) (cfg : Cfg) :
    St → List Url → Option St
  | st, [] => some st
  | st, link :: rest =>
    if cfg.max_links ≤ st.visited.length then some st
    else
      match rec st link with
      | none => none
      | some st => docLoop rec cfg st rest

/-- One activation of `DocScraper.scrape` (src/doc_scraper.py lines
339-421), with the recursive call abstracted as `rec`: limit check,
visited check, validity check, fetch, structured extraction via
`scrape_single_page` (which fetches the page again), mark visited,
store formatted text, depth check, then expand the documentation-first
reordering of the extracted links. -/
def docScrapeBody (rec : St → Url → Option St) (env : Env) (cfg : Cfg)
    (st : St) (startUrl : Url) (currentDepth maxDepth : Nat)
    (filterSameDomain : Bool) : Option St :=
  if cfg.max_links ≤ st.visited.length then some st
  else if startUrl ∈ st.visited then some st
  else if ¬ env.validUrl startUrl then some st
  else
    match fetchPage env cfg st startUrl with
    | (st, none) => some st
    | (st, some html) =>
      if html = "" then some st
      else
        match scrapeSinglePage env cfg st startUrl with
        | (st, pd) =>
          let st := { st with visited := st.visited ++ [startUrl] }
          let st := { st with
            text_content := dictInsert st.text_content startUrl
              (formatPageContent pd) }
          if maxDepth ≤ currentDepth then some st
          else
            let links := extractLinks env startUrl (env.anchors html) filterSameDomain
            let docLinks := links.filter
              (fun l => !(decide (l ∈ st.visited)) && env.isDocSite l)
            let sortedLinks := docLinks
              ++ links.filter (fun l => !(decide (l ∈ docLinks)))
            docLoop rec cfg st sortedLinks

/-- Fuelled embedding of the recursive `DocScraper.scrape`.  The unused
`keywords` parameter is threaded through the recursion exactly as in the
source. -/
def docScrapeF (env : Env) (cfg : Cfg) :
    Nat → St → Url → Nat → Nat → Bool → Option (List String) → Option St
  | 0, _, _, _, _, _, _ => none
  | fuel + 1, st, startUrl, currentDepth, maxDepth, fsd, kw =>
    docScrapeBody (fun st' l => docScrapeF env cfg fuel st' l (currentDepth + 1) maxDepth fsd kw)
      env cfg st startUrl currentDepth maxDepth fsd

/-- One anchor's contribution to `Scraper.extract_links` before
de-duplication: `none` when the anchor is filtered out (wrong domain,
invalid, or ending in `#`), otherwise the query-stripped resolved URL.
Spec-side characterization used to state the extraction contract. -/
def linkCandidate (env : Env) (url : Url) (filterSameDomain : Bool) (h : Href) :
    Option Url :=
  let a := urljoin url h
  if filterSameDomain ∧ a.netloc ≠ url.netloc then none
  else if env.validUrl a ∧ ¬ endsWithHash a then some (stripQuery a)
  else none

/-- De-duplication keeping first occurrences, relative to an already
seen prefix. -/
def dedupFirstAux : List Url → List Url → List Url
  | _, [] => []
  | seen, x :: xs =>
    if x ∈ seen then dedupFirstAux seen xs
    else x :: dedupFirstAux (seen ++ [x]) xs

/-- De-duplication keeping the first occurrence of each element. -/
def dedupFirst (l : List Url) : List Url := dedupFirstAux [] l

/-- One tag's contribution to `DocScraper.extract_headings`: `none`
unless the tag is an `h1`..`h6` with nonempty stripped text.  Spec-side
characterization used to state the heading contract. -/
def headingOf (t : Tag) : Option Heading :=
  if t.name ∈ headingNames ∧ pyStrip t.text ≠ "" then
    some { level := headingLevel t.name, text := pyStrip t.text, id := t.id.getD "" }
  else none

/-- Crawl invariant of `Scraper.scrape`: the visited set and the link
list have no duplicates, the link list never exceeds `max_links`, and
every URL that was actually GET-requested is in the visited set (and
requested only once). -/
def StInv (cfg : Cfg) (st : St) : Prop :=
  st.visited.Nodup ∧ st.all_links.Nodup ∧
  st.all_links.length ≤ cfg.max_links ∧
  st.gets.Nodup ∧ (∀ g ∈ st.gets, g ∈ st.visited)

/-- Growth of the visited set and link list across one engine step. -/
def StMono (s s' : St) : Prop :=
  (∀ x ∈ s.visited, x ∈ s'.visited) ∧ (∀ x ∈ s.all_links, x ∈ s'.all_links)

/-- Contract of the recursive call inside `Scraper.scrape`'s expansion
loop: it preserves the invariant, only grows the state, and any newly
visited URL is either the called URL itself or ends up recorded in
`all_links`. -/
def RecOK (cfg : Cfg) (rec : St → Url → Option St) : Prop :=
  ∀ s l s', rec s l = some s' → StInv cfg s →
    StInv cfg s' ∧ StMono s s' ∧
    (∀ x ∈ s'.visited, x ∈ s.visited ∨ x = l ∨ x ∈ s'.all_links)

/-- Contract of the recursive call inside `DocScraper.scrape`'s loop:
it preserves the `max_links` bound on the visited set. -/
def DocRecOK (cfg : Cfg) (rec : St → Url → Option St) : Prop :=
  ∀ s l s', rec s l = some s' →
    s.visited.length ≤ cfg.max_links → s'.visited.length ≤ cfg.max_links

/-- A URL with the given host, used to build concrete crawl scenarios. -/
def mkU (n : String) : Url := ⟨"https", n, "/", none, none⟩

/-- An empty parse result. -/
def soup0 : Soup := ⟨none, [], [], [], ""⟩

/-- A one-page world: every URL is valid, robots.txt cannot be read,
every GET returns status 200 with body `"body"`, pages have no links. -/
def envA : Env :=
  { validUrl := fun _ => true,
    robots := fun _ => none,
    net := fun _ => .resp 200 "body",
    anchors := fun _ => [],
    extractText := fun _ b _ => b,
    parse := fun _ => soup0,
    isDocSite := fun _ => false }

/-- The seed URL of the concrete scenarios. -/
def uA : Url := mkU "seed.example"

/-- A world whose GETs all answer `304 Not Modified` with an empty
body (no transport error, but not a 2xx status). -/
def env6 : Env := { envA with net := fun _ => .resp 304 "" }

/-- A five-page link graph `S -> A, C`; `A -> C`; `C -> X, Y`, all
fetchable with status 200, where the robots policy of every origin
disallows exactly the host `A`.  Each body is the page's host name. -/
def env9 : Env :=
  { validUrl := fun _ => true,
    robots := fun _ => some (fun u => u.netloc != "A"),
    net := fun u => .resp 200 u.netloc,
    anchors := fun b =>
      if b = "S" then [.abs (mkU "A"), .abs (mkU "C")]
      else if b = "A" then [.abs (mkU "C")]
      else if b = "C" then [.abs (mkU "X"), .abs (mkU "Y")]
      else [],
    extractText := fun _ b _ => b,
    parse := fun _ => soup0,
    isDocSite := fun _ => false }

/-- The seed of the `env9` scenarios. -/
def uS : Url := mkU "S"

/-- The base URL of the link-extraction scenarios. -/
def base4 : Url := ⟨"https", "example.com", "/page", none, none⟩

/-- What `href="#intro"` on `base4` resolves to: the same document with
a fragment — a pure same-page anchor. -/
def urlIntro : Url := ⟨"https", "example.com", "/page", none, some "intro"⟩

/-- The final state of a small completed crawl in the world `envA`,
used to witness the crawl-level theorems. -/
def runS : St := (scrapeF envA ⟨5, false⟩ 3 initSt uA 0 1 false none).getD initSt

/-- `_get_robot_parser` touches only the robots cache. -/
theorem getRobotParser_fields (env : Env) (cfg : Cfg) (st : St) (url : Url) :
    (getRobotParser env cfg st url).1.visited = st.visited ∧
    (getRobotParser env cfg st url).1.all_links = st.all_links ∧
    (getRobotParser env cfg st url).1.text_content = st.text_content ∧
    (getRobotParser env cfg st url).1.page_structures = st.page_structures ∧
    (getRobotParser env cfg st url).1.success_count = st.success_count ∧
    (getRobotParser env cfg st url).1.failure_count = st.failure_count ∧
    (getRobotParser env cfg st url).1.gets = st.gets := by
  unfold getRobotParser
  repeat' split <;> simp_all

/-- `can_fetch` touches only the robots cache. -/
theorem canFetch_fields (env : Env) (cfg : Cfg) (st : St) (url : Url) :
    (canFetch env cfg st url).1.visited = st.visited ∧
    (canFetch env cfg st url).1.all_links = st.all_links ∧
    (canFetch env cfg st url).1.text_content = st.text_content ∧
    (canFetch env cfg st url).1.page_structures = st.page_structures ∧
    (canFetch env cfg st url).1.success_count = st.success_count ∧
    (canFetch env cfg st url).1.failure_count = st.failure_count ∧
    (canFetch env cfg st url).1.gets = st.gets := by
  have hg := getRobotParser_fields env cfg st url
  unfold canFetch
  split
  · exact ⟨rfl, rfl, rfl, rfl, rfl, rfl, rfl⟩
  · rcases h : getRobotParser env cfg st url with ⟨st1, p⟩
    rw [h] at hg
    cases p <;> simp only [h] <;> exact hg

/-- `fetch_page` never touches the visited set, the link list, the text
content or the structured records, and appends the URL to the GET log
at most once (exactly when the robots gate lets the request through). -/
theorem fetchPage_fields (env : Env) (cfg : Cfg) (st : St) (url : Url) :
    (fetchPage env cfg st url).1.visited = st.visited ∧
    (fetchPage env cfg st url).1.all_links = st.all_links ∧
    (fetchPage env cfg st url).1.text_content = st.text_content ∧
    (fetchPage env cfg st url).1.page_structures = st.page_structures ∧
    ((fetchPage env cfg st url).1.gets = st.gets ∨
     (fetchPage env cfg st url).1.gets = st.gets ++ [url]) := by
  have hc := canFetch_fields env cfg st url
  unfold fetchPage
  rcases h : canFetch env cfg st url with ⟨st1, ok⟩
  rw [h] at hc
  obtain ⟨h1, h2, h3, h4, _, _, h7⟩ := hc
  simp only at h1 h2 h3 h4 h7
  cases ok
  · simp only [Bool.not_false, ite_true]
    exact ⟨h1, h2, h3, h4, Or.inl h7⟩
  · simp only [Bool.not_true, ite_false]
    cases hn : env.net url with
    | error => exact ⟨h1, h2, h3, h4, Or.inr (by simp [h7])⟩
    | resp s b =>
      by_cases hs : 400 ≤ s ∧ s < 600
      · simp only [hs, ite_true]
        exact ⟨h1, h2, h3, h4, Or.inr (by simp [h7])⟩
      · simp only [hs, ite_false]
        exact ⟨h1, h2, h3, h4, Or.inr (by simp [h7])⟩

/-- `scrape_single_page` never touches the visited set, link list or
text content (it fetches, then only stores a structured record). -/
theorem scrapeSinglePage_fields (env : Env) (cfg : Cfg) (st : St) (url : Url) :
    (scrapeSinglePage env cfg st url).1.visited = st.visited ∧
    (scrapeSinglePage env cfg st url).1.all_links = st.all_links ∧
    (scrapeSinglePage env cfg st url).1.text_content = st.text_content := by
  have hf := fetchPage_fields env cfg st url
  unfold scrapeSinglePage
  rcases h : fetchPage env cfg st url with ⟨st1, res⟩
  rw [h] at hf
  obtain ⟨h1, h2, h3, _, _⟩ := hf
  simp only at h1 h2 h3
  cases res with
  | none => exact ⟨h1, h2, h3⟩
  | some html =>
    by_cases hh : html = ""
    · simp only [hh, ite_true]
      exact ⟨h1, h2, h3⟩
    · simp only [hh, ite_false]
      exact ⟨h1, h2, h3⟩

/-- C5: the politeness decision `can_fetch` returns `True` whenever
robots compliance is disabled; with compliance enabled it still returns
`True` when the origin's robots.txt could not be retrieved or parsed
(no cached policy and the read raises — it fails open); and it returns
`False` only when robots compliance is enabled and an actually obtained
policy (cached, or freshly read) disallows the URL. -/
theorem canFetch_spec (env : Env) (cfg : Cfg) (st : St) (url : Url) :
    (cfg.respect_robots = false → (canFetch env cfg st url).2 = true) ∧
    (st.robot_parsers.lookup (origin url) = none →
      env.robots (origin url) = none → (canFetch env cfg st url).2 = true) ∧
    ((canFetch env cfg st url).2 = false →
      cfg.respect_robots = true ∧
      ∃ rp : Url → Bool,
        (st.robot_parsers.lookup (origin url) = some rp ∨
         env.robots (origin url) = some rp) ∧ rp url = false) := by
  unfold canFetch getRobotParser
  cases hr : cfg.respect_robots with
  | false => simp
  | true =>
    refine ⟨fun h => absurd h (by decide), ?_, ?_⟩
    · intro hl he
      simp [hl, he]
    · intro hfalse
      refine ⟨rfl, ?_⟩
      rcases hl : st.robot_parsers.lookup (origin url) with _ | rp
      · rcases he : env.robots (origin url) with _ | rp
        · simp [hl, he] at hfalse
        · simp only [hl, he] at hfalse
          refine ⟨rp, Or.inr rfl, ?_⟩
          simpa using hfalse
      · simp only [hl] at hfalse
        refine ⟨rp, Or.inl rfl, ?_⟩
        simpa using hfalse

/-- C6 (amended): for a URL the robots gate lets through, `fetch_page`
issues exactly one GET (never a retry); a transport error or a 4xx/5xx
status increments the failure counter by one and returns `None`; any
other response — this includes every 2xx, but also e.g. a 304 —
increments the success counter by one and returns the body. -/
theorem fetchPage_spec (env : Env) (cfg : Cfg) (st : St) (url : Url)
    (hrob : (canFetch env cfg st url).2 = true) :
    (fetchPage env cfg st url).1.gets = (canFetch env cfg st url).1.gets ++ [url] ∧
    (env.net url = NetResult.error →
      (fetchPage env cfg st url).2 = none ∧
      (fetchPage env cfg st url).1.failure_count = st.failure_count + 1 ∧
      (fetchPage env cfg st url).1.success_count = st.success_count) ∧
    (∀ s b, env.net url = NetResult.resp s b → (400 ≤ s ∧ s < 600) →
      (fetchPage env cfg st url).2 = none ∧
      (fetchPage env cfg st url).1.failure_count = st.failure_count + 1 ∧
      (fetchPage env cfg st url).1.success_count = st.success_count) ∧
    (∀ s b, env.net url = NetResult.resp s b → ¬ (400 ≤ s ∧ s < 600) →
      (fetchPage env cfg st url).2 = some b ∧
      (fetchPage env cfg st url).1.success_count = st.success_count + 1 ∧
      (fetchPage env cfg st url).1.failure_count = st.failure_count) := by
  have hc := canFetch_fields env cfg st url
  unfold fetchPage
  rcases h : canFetch env cfg st url with ⟨st1, ok⟩
  rw [h] at hc hrob
  obtain ⟨_, _, _, _, h5, h6, h7⟩ := hc
  simp only at h5 h6 h7 hrob
  subst hrob
  simp only [Bool.not_true, ite_false]
  refine ⟨?_, ?_, ?_, ?_⟩
  · cases hn : env.net url with
    | error => simp
    | resp s b =>
      by_cases hs : 400 ≤ s ∧ s < 600
      · simp [hs]
      · simp [hs]
  · intro hn
    simp [hn, h5, h6]
  · intro s b hn hs
    simp [hn, hs, h5, h6]
  · intro s b hn hs
    simp [hn, hs, h5, h6]

/-- C9 (amended): politeness only restricts individual fetches — if a
fetch succeeds with robots compliance enabled, the same fetch in the
same world succeeds with the same body when robots compliance is
disabled. -/
theorem fetchPage_robots_mono (env : Env) (cfg : Cfg) (st : St) (url : Url) (b : String)
    (h : (fetchPage env { cfg with respect_robots := true } st url).2 = some b) :
    (fetchPage env { cfg with respect_robots := false } st url).2 = some b := by
  have hd : canFetch env { cfg with respect_robots := false } st url = (st, true) := by
    unfold canFetch
    simp
  unfold fetchPage at h ⊢
  rw [hd]
  rcases hc : canFetch env { cfg with respect_robots := true } st url with ⟨st1, ok⟩
  rw [hc] at h
  simp only [Bool.not_true, ite_false]
  cases ok
  · simp at h
  · simp only [Bool.not_true, ite_false] at h
    cases hn : env.net url with
    | error =>
      rw [hn] at h
      simp at h
    | resp s b2 =>
      rw [hn] at h
      by_cases hs : 400 ≤ s ∧ s < 600
      · simp [hs] at h
      · simp only [hs, ite_false] at h ⊢
        simpa using h

/-- Elements produced by the first-seen de-duplication come from the
input and were not already seen. -/
theorem mem_dedupFirstAux {x : Url} :
    ∀ (l seen : List Url), x ∈ dedupFirstAux seen l → x ∈ l ∧ x ∉ seen := by
  intro l
  induction l with
  | nil => intro seen h; simp [dedupFirstAux] at h
  | cons y ys ih =>
    intro seen h
    by_cases hy : y ∈ seen
    · simp only [dedupFirstAux, hy, ite_true] at h
      have := ih seen h
      exact ⟨List.mem_cons_of_mem _ this.1, this.2⟩
    · simp only [dedupFirstAux, hy, ite_false] at h
      rcases List.mem_cons.mp h with rfl | h
      · exact ⟨List.mem_cons_self _ _, hy⟩
      · have := ih (seen ++ [y]) h
        refine ⟨List.mem_cons_of_mem _ this.1, fun hx => this.2 ?_⟩
        exact List.mem_append_left _ hx
  
/-- The first-seen de-duplication produces a list with no duplicates. -/
theorem nodup_dedupFirstAux : ∀ (l seen : List Url), (dedupFirstAux seen l).Nodup := by
  intro l
  induction l with
  | nil => intro seen; simp [dedupFirstAux]
  | cons y ys ih =>
    intro seen
    by_cases hy : y ∈ seen
    · simp only [dedupFirstAux, hy, ite_true]
      exact ih seen
    · simp only [dedupFirstAux, hy, ite_false]
      refine List.nodup_cons.mpr ⟨fun hmem => ?_, ih (seen ++ [y])⟩
      exact (mem_dedupFirstAux ys (seen ++ [y]) hmem).2 (by simp)

/-- The query component of a query-stripped URL is absent. -/
theorem stripQuery_query (u : Url) : (stripQuery u).query = none := by
  unfold stripQuery
  rcases hq : u.query with _ | q
  · simp [hq]
  · simp [hq]

/-- Stripping the query does not change the host. -/
theorem stripQuery_netloc (u : Url) : (stripQuery u).netloc = u.netloc := by
  unfold stripQuery
  split <;> rfl

/-- The accumulator recursion of `extract_links` is first-seen
de-duplication of the per-anchor candidate stream. -/
theorem extractLinksGo_eq (env : Env) (url : Url) (fsd : Bool) :
    ∀ (anchors : List Href) (acc : List Url),
      extractLinksGo env url fsd anchors acc
        = acc ++ dedupFirstAux acc (anchors.filterMap (linkCandidate env url fsd)) := by
  intro anchors
  induction anchors with
  | nil =>
    intro acc
    simp [extractLinksGo, dedupFirstAux]
  | cons h rest ih =>
    intro acc
    simp only [extractLinksGo, linkCandidate, List.filterMap_cons]
    by_cases h1 : fsd = true ∧ (urljoin url h).netloc ≠ url.netloc
    · rw [if_pos h1, if_pos h1]
      exact ih acc
    · rw [if_neg h1, if_neg h1]
      by_cases h2 : env.validUrl (urljoin url h) = true ∧ ¬ endsWithHash (urljoin url h) = true
      · rw [if_pos h2, if_pos h2]
        by_cases h3 : stripQuery (urljoin url h) ∈ acc
        · rw [if_pos h3]
          show extractLinksGo env url fsd rest acc
            = acc ++ dedupFirstAux acc
                (stripQuery (urljoin url h) :: List.filterMap (linkCandidate env url fsd) rest)
          rw [ih acc]
          simp [dedupFirstAux, h3]
        · rw [if_neg h3]
          show extractLinksGo env url fsd rest (acc ++ [stripQuery (urljoin url h)])
            = acc ++ dedupFirstAux acc
                (stripQuery (urljoin url h) :: List.filterMap (linkCandidate env url fsd) rest)
          rw [ih (acc ++ [stripQuery (urljoin url h)])]
          simp [dedupFirstAux, h3]
      · rw [if_neg h2, if_neg h2]
        exact ih acc

/-- C4 (amended): `extract_links` is exactly the first-seen
de-duplication of the resolved, filtered, query-stripped anchor stream;
hence its result has no duplicates, every element arises from some
anchor by resolving against the base URL and stripping the query
(validity checked, bare-`#` URLs dropped, same-domain filter applied
when enabled), and every element has no query component.  Same-page
anchors with a nonempty fragment are kept (see the counterexample). -/
theorem extractLinks_spec (env : Env) (base : Url) (anchors : List Href) (fsd : Bool) :
    extractLinks env base anchors fsd
      = dedupFirst (anchors.filterMap (linkCandidate env base fsd)) ∧
    (extractLinks env base anchors fsd).Nodup ∧
    (∀ l ∈ extractLinks env base anchors fsd,
      ∃ h ∈ anchors,
        l = stripQuery (urljoin base h) ∧
        env.validUrl (urljoin base h) = true ∧
        endsWithHash (urljoin base h) = false ∧
        (fsd = true → (urljoin base h).netloc = base.netloc)) ∧
    (∀ l ∈ extractLinks env base anchors fsd,
      l.query = none ∧ (fsd = true → l.netloc = base.netloc)) := by
  have heq : extractLinks env base anchors fsd
      = dedupFirst (anchors.filterMap (linkCandidate env base fsd)) := by
    unfold extractLinks dedupFirst
    simpa using extractLinksGo_eq env base fsd anchors []
  have hprov : ∀ l ∈ extractLinks env base anchors fsd,
      ∃ h ∈ anchors,
        l = stripQuery (urljoin base h) ∧
        env.validUrl (urljoin base h) = true ∧
        endsWithHash (urljoin base h) = false ∧
        (fsd = true → (urljoin base h).netloc = base.netloc) := by
    intro l hl
    rw [heq] at hl
    have hmem := (mem_dedupFirstAux _ _ hl).1
    rcases List.mem_filterMap.mp hmem with ⟨h, hh, hcand⟩
    refine ⟨h, hh, ?_⟩
    simp only [linkCandidate] at hcand
    by_cases h1 : fsd = true ∧ (urljoin base h).netloc ≠ base.netloc
    · rw [if_pos h1] at hcand
      exact absurd hcand (by simp)
    · rw [if_neg h1] at hcand
      by_cases h2 : env.validUrl (urljoin base h) = true ∧ ¬ endsWithHash (urljoin base h) = true
      · rw [if_pos h2] at hcand
        have hl2 : stripQuery (urljoin base h) = l := Option.some.inj hcand
        refine ⟨hl2.symm, h2.1, ?_, ?_⟩
        · cases hbool : endsWithHash (urljoin base h)
          · rfl
          · exact absurd hbool h2.2
        · intro hf
          by_contra hne
          exact h1 ⟨hf, hne⟩
      · rw [if_neg h2] at hcand
        exact absurd hcand (by simp)
  refine ⟨heq, ?_, hprov, ?_⟩
  · rw [heq]
    exact nodup_dedupFirstAux _ _
  · intro l hl
    rcases hprov l hl with ⟨h, _, rfl, _, _, hd⟩
    exact ⟨stripQuery_query _, fun hf => by rw [stripQuery_netloc]; exact hd hf⟩

/-- `extract_headings` is the per-tag selection `headingOf` applied in
document order. -/
theorem extractHeadings_eq : ∀ tags, extractHeadings tags = tags.filterMap headingOf := by
  intro tags
  induction tags with
  | nil => rfl
  | cons t rest ih =>
    simp only [extractHeadings, headingOf, List.filterMap_cons]
    by_cases h1 : t.name ∈ headingNames
    · rw [if_pos h1]
      by_cases h2 : pyStrip t.text = ""
      · rw [if_pos h2, if_neg (fun hc => hc.2 h2)]
        exact ih
      · rw [if_neg h2, if_pos ⟨h1, h2⟩]
        show _ :: extractHeadings rest
          = _ :: List.filterMap headingOf rest
        rw [ih]
    · rw [if_neg h1, if_neg (fun hc => h1 hc.1)]
      exact ih

/-- C7: a page containing an `<h2>Intro</h2>` heading tag yields a
`{level 2, text "Intro"}` entry; headings are collected in document
order (the `filterMap` characterization), empty-stripped headings are
skipped, and `scrape_single_page` stores exactly these headings in the
page record it produces. -/
theorem extractHeadings_spec :
    (∀ (tags : List Tag) (oid : Option String),
      Tag.mk "h2" "Intro" oid ∈ tags →
      Heading.mk 2 "Intro" (oid.getD "") ∈ extractHeadings tags) ∧
    (∀ tags, extractHeadings tags = tags.filterMap headingOf) ∧
    (∀ tags h, h ∈ extractHeadings tags → h.text ≠ "") ∧
    (∀ (env : Env) (cfg : Cfg) (st : St) (url : Url) (st' : St) (pd : PageData),
      scrapeSinglePage env cfg st url = (st', some pd) →
      ∃ html, (fetchPage env cfg st url).2 = some html ∧
        pd.headings = extractHeadings (env.parse html).tags) := by
  refine ⟨?_, extractHeadings_eq, ?_, ?_⟩
  · intro tags oid hmem
    rw [extractHeadings_eq]
    refine List.mem_filterMap.mpr ⟨Tag.mk "h2" "Intro" oid, hmem, ?_⟩
    rfl
  · intro tags h hmem
    rw [extractHeadings_eq] at hmem
    rcases List.mem_filterMap.mp hmem with ⟨t, _, hof⟩
    simp only [headingOf] at hof
    by_cases hc : t.name ∈ headingNames ∧ ¬ pyStrip t.text = ""
    · rw [if_pos hc] at hof
      rw [← Option.some.inj hof]
      exact hc.2
    · rw [if_neg hc] at hof
      exact absurd hof (by simp)
  · intro env cfg st url st' pd hsp
    unfold scrapeSinglePage at hsp
    rcases h : fetchPage env cfg st url with ⟨st1, res⟩
    rw [h] at hsp
    cases res with
    | none =>
      dsimp only at hsp
      exact absurd (congrArg Prod.snd hsp) (by simp)
    | some html =>
      dsimp only at hsp
      by_cases hh : html = ""
      · rw [if_pos hh] at hsp
        exact absurd (congrArg Prod.snd hsp) (by simp)
      · rw [if_neg hh] at hsp
        refine ⟨html, rfl, ?_⟩
        have hpd := congrArg Prod.snd hsp
        dsimp only at hpd
        rw [← Option.some.inj hpd]

/-- C8 (amended): a crawl configured with `max_links = 0` (max pages
< 1) is not rejected and raises nothing: both engines return the state
unchanged — an ordinary empty result, with no crawl-level failure
channel at all. -/
theorem scrape_no_validation (env : Env) (cfg : Cfg) (h : cfg.max_links = 0)
    (fuel : Nat) (st : St) (url : Url) (d maxD : Nat) (fsd : Bool)
    (kw : Option (List String)) :
    scrapeF env cfg (fuel + 1) st url d maxD fsd kw = some st ∧
    docScrapeF env cfg (fuel + 1) st url d maxD fsd kw = some st := by
  constructor
  · show scrapeBody _ env cfg st url d maxD fsd kw = some st
    unfold scrapeBody
    by_cases h1 : ¬ env.validUrl url = true
    · rw [if_pos h1]
    · rw [if_neg h1]
      by_cases h2 : url ∈ st.visited
      · rw [if_pos h2]
      · rw [if_neg h2, if_pos (by omega : cfg.max_links ≤ st.all_links.length)]
  · show docScrapeBody _ env cfg st url d maxD fsd = some st
    unfold docScrapeBody
    rw [if_pos (by omega : cfg.max_links ≤ st.visited.length)]

/-- The documentation expansion loop only depends on the recursive call
extensionally. -/
theorem docLoop_congr (r1 r2 : St → Url → Option St) (cfg : Cfg)
    (h : ∀ st l, r1 st l = r2 st l) :
    ∀ (links : List Url) (st : St), docLoop r1 cfg st links = docLoop r2 cfg st links := by
  intro links
  induction links with
  | nil => intro st; rfl
  | cons l rest ih =>
    intro st
    simp only [docLoop]
    by_cases hlim : cfg.max_links ≤ st.visited.length
    · rw [if_pos hlim, if_pos hlim]
    · rw [if_neg hlim, if_neg hlim, h st l]
      cases r2 st l with
      | none => rfl
      | some st2 => exact ih st2

/-- One `DocScraper.scrape` activation only depends on the recursive
call extensionally. -/
theorem docScrapeBody_congr (r1 r2 : St → Url → Option St) (env : Env) (cfg : Cfg)
    (st : St) (url : Url) (d maxD : Nat) (fsd : Bool)
    (h : ∀ s l, r1 s l = r2 s l) :
    docScrapeBody r1 env cfg st url d maxD fsd
      = docScrapeBody r2 env cfg st url d maxD fsd := by
  unfold docScrapeBody
  repeat' split
  all_goals first
    | rfl
    | exact docLoop_congr r1 r2 cfg h _ _

/-- C10: the `keywords` argument of `DocScraper.scrape` has no effect
whatsoever — two crawls identical but for `keywords` produce identical
final states (visited URLs, text content, structured page data,
counters) and identical results. -/
theorem docScrape_keywords_irrelevant (env : Env) (cfg : Cfg) :
    ∀ (fuel : Nat) (st : St) (url : Url) (d maxD : Nat) (fsd : Bool)
      (kw1 kw2 : Option (List String)),
      docScrapeF env cfg fuel st url d maxD fsd kw1
        = docScrapeF env cfg fuel st url d maxD fsd kw2 := by
  intro fuel
  induction fuel with
  | zero =>
    intro st url d maxD fsd kw1 kw2
    rfl
  | succ n ih =>
    intro st url d maxD fsd kw1 kw2
    show docScrapeBody _ env cfg st url d maxD fsd
      = docScrapeBody _ env cfg st url d maxD fsd
    exact docScrapeBody_congr _ _ env cfg st url d maxD fsd
      (fun s l => ih s l (d + 1) maxD fsd kw1 kw2)

/-- If every recursive call completes, the documentation loop
completes. -/
theorem docLoop_total (rec : St → Url → Option St) (cfg : Cfg)
    (hrec : ∀ s l, (rec s l).isSome) :
    ∀ (links : List Url) (st : St), (docLoop rec cfg st links).isSome := by
  intro links
  induction links with
  | nil => intro st; rfl
  | cons l rest ih =>
    intro st
    simp only [docLoop]
    by_cases hlim : cfg.max_links ≤ st.visited.length
    · rw [if_pos hlim]
      rfl
    · rw [if_neg hlim]
      rcases hr : rec st l with _ | st2
      · have := hrec st l
        rw [hr] at this
        simp at this
      · exact ih st2

/-- If every recursive call completes, the base expansion loop
completes. -/
theorem scrapeLoop_total (rec : St → Url → Option St) (cfg : Cfg)
    (hrec : ∀ s l, (rec s l).isSome) :
    ∀ (links : List Url) (st : St), (scrapeLoop rec cfg st links).isSome := by
  intro links
  induction links with
  | nil => intro st; rfl
  | cons l rest ih =>
    intro st
    simp only [scrapeLoop]
    by_cases hv : l ∈ st.visited
    · rw [if_pos hv]
      exact ih st
    · rw [if_neg hv]
      by_cases hlim : cfg.max_links ≤ st.all_links.length
      · rw [if_pos hlim]
        rfl
      · rw [if_neg hlim]
        rcases hr : rec (if l ∈ st.all_links then st
            else { st with all_links := st.all_links ++ [l] }) l with _ | st2
        · have := hrec (if l ∈ st.all_links then st
            else { st with all_links := st.all_links ++ [l] }) l
          rw [hr] at this
          simp at this
        · exact ih st2

/-- One `Scraper.scrape` activation completes whenever its recursive
calls do (they are only made below the depth bound). -/
theorem scrapeBody_total (rec : St → Url → Option St) (env : Env) (cfg : Cfg)
    (st : St) (url : Url) (d maxD : Nat) (fsd : Bool) (kw : Option (List String))
    (hrec : d < maxD → ∀ s l, (rec s l).isSome) :
    (scrapeBody rec env cfg st url d maxD fsd kw).isSome := by
  unfold scrapeBody
  dsimp only
  repeat' split
  all_goals first
    | rfl
    | (apply scrapeLoop_total
       intro s l
       exact hrec (by assumption) s l)

/-- One `DocScraper.scrape` activation completes whenever its recursive
calls do. -/
theorem docScrapeBody_total (rec : St → Url → Option St) (env : Env) (cfg : Cfg)
    (st : St) (url : Url) (d maxD : Nat) (fsd : Bool)
    (hrec : d < maxD → ∀ s l, (rec s l).isSome) :
    (docScrapeBody rec env cfg st url d maxD fsd).isSome := by
  unfold docScrapeBody
  dsimp only
  repeat' split
  all_goals first
    | rfl
    | (apply docLoop_total
       intro s l
       apply hrec _ s l
       omega)

/-- `Scraper.scrape` halts: `maxD - d + 1` fuel always suffices. -/
theorem scrapeF_total (env : Env) (cfg : Cfg) (maxD : Nat) (fsd : Bool)
    (kw : Option (List String)) :
    ∀ (fuel d : Nat), maxD - d < fuel → ∀ (st : St) (url : Url),
      (scrapeF env cfg fuel st url d maxD fsd kw).isSome := by
  intro fuel
  induction fuel with
  | zero =>
    intro d h
    exact absurd h (Nat.not_lt_zero _)
  | succ n ih =>
    intro d h st url
    show (scrapeBody _ env cfg st url d maxD fsd kw).isSome
    apply scrapeBody_total
    intro hd s l
    exact ih (d + 1) (by omega) s l

/-- `DocScraper.scrape` halts: `maxD - d + 1` fuel always suffices. -/
theorem docScrapeF_total (env : Env) (cfg : Cfg) (maxD : Nat) (fsd : Bool)
    (kw : Option (List String)) :
    ∀ (fuel d : Nat), maxD - d < fuel → ∀ (st : St) (url : Url),
      (docScrapeF env cfg fuel st url d maxD fsd kw).isSome := by
  intro fuel
  induction fuel with
  | zero =>
    intro d h
    exact absurd h (Nat.not_lt_zero _)
  | succ n ih =>
    intro d h st url
    show (docScrapeBody _ env cfg st url d maxD fsd).isSome
    apply docScrapeBody_total
    intro hd s l
    exact ih (d + 1) (by omega) s l

/-- C3: both recursive scrape operations terminate for every seed,
configuration and finite per-page link behaviour: recursion only
happens while the current depth is below the depth bound and each
recursive call deepens by one, so fuel exceeding `maxD - d` is never
exhausted and the engine halts with a result. -/
theorem scrape_terminates (env : Env) (cfg : Cfg) (maxD : Nat) (fsd : Bool)
    (kw : Option (List String)) (fuel d : Nat) (hfuel : maxD - d < fuel)
    (st : St) (url : Url) :
    (scrapeF env cfg fuel st url d maxD fsd kw).isSome ∧
    (docScrapeF env cfg fuel st url d maxD fsd kw).isSome :=
  ⟨scrapeF_total env cfg maxD fsd kw fuel d hfuel st url,
   docScrapeF_total env cfg maxD fsd kw fuel d hfuel st url⟩

/-- Appending a fresh element preserves `Nodup`. -/
theorem nodup_append_one {l : List Url} {a : Url} (h : l.Nodup) (ha : a ∉ l) :
    (l ++ [a]).Nodup := by
  simp [List.nodup_append, h, ha]

/-- A duplicate-free list contained in another list is no longer than
it. -/
theorem length_le_of_nodup_subset {l1 l2 : List Url} (h1 : l1.Nodup)
    (h2 : ∀ x ∈ l1, x ∈ l2) : l1.length ≤ l2.length := by
  classical
  calc l1.length = l1.toFinset.card := (List.toFinset_card_of_nodup h1).symm
    _ ≤ l2.toFinset.card := Finset.card_le_card (fun x hx => by
        rw [List.mem_toFinset] at hx ⊢
        exact h2 x hx)
    _ ≤ l2.length := List.toFinset_card_le l2

/-- The expansion loop of `Scraper.scrape` preserves the crawl
invariant, only grows the state, and every URL it newly visits ends up
in `all_links` (each link is recorded there before being recursed
into). -/
theorem scrapeLoop_inv (cfg : Cfg) (rec : St → Url → Option St) (hrec : RecOK cfg rec) :
    ∀ (links : List Url) (st st' : St),
      scrapeLoop rec cfg st links = some st' → StInv cfg st →
      StInv cfg st' ∧ StMono st st' ∧
      (∀ x ∈ st'.visited, x ∈ st.visited ∨ x ∈ st'.all_links) := by
  intro links
  induction links with
  | nil =>
    intro st st' h hI
    obtain rfl : st = st' := Option.some.inj h
    exact ⟨hI, ⟨fun x hx => hx, fun x hx => hx⟩, fun x hx => Or.inl hx⟩
  | cons l rest ih =>
    intro st st' h hI
    simp only [scrapeLoop] at h
    by_cases hv : l ∈ st.visited
    · rw [if_pos hv] at h
      exact ih st st' h hI
    · rw [if_neg hv] at h
      by_cases hlim : cfg.max_links ≤ st.all_links.length
      · rw [if_pos hlim] at h
        obtain rfl : st = st' := Option.some.inj h
        exact ⟨hI, ⟨fun x hx => hx, fun x hx => hx⟩, fun x hx => Or.inl hx⟩
      · rw [if_neg hlim] at h
        have hfacts : ∀ st1, st1 = (if l ∈ st.all_links then st
              else { st with all_links := st.all_links ++ [l] }) →
            StInv cfg st1 ∧ l ∈ st1.all_links ∧ st1.visited = st.visited ∧
            (∀ x ∈ st.all_links, x ∈ st1.all_links) := by
          intro st1 hst1
          by_cases hmem : l ∈ st.all_links
          · rw [if_pos hmem] at hst1
            subst hst1
            exact ⟨hI, hmem, rfl, fun x hx => hx⟩
          · rw [if_neg hmem] at hst1
            subst hst1
            refine ⟨⟨hI.1, nodup_append_one hI.2.1 hmem, ?_, hI.2.2.2.1, hI.2.2.2.2⟩,
              by simp, rfl, fun x hx => List.mem_append_left _ hx⟩
            have : st.all_links.length < cfg.max_links := Nat.lt_of_not_le hlim
            simp only [List.length_append, List.length_singleton]
            omega
        rcases hr : rec (if l ∈ st.all_links then st
            else { st with all_links := st.all_links ++ [l] }) l with _ | st2
        · rw [hr] at h
          exact absurd h (by simp)
        · rw [hr] at h
          obtain ⟨hI1, hl1, hvis1, hlinks1⟩ := hfacts _ rfl
          obtain ⟨hI2, hM12, hP12⟩ := hrec _ l st2 hr hI1
          obtain ⟨hI', hM2', hP'⟩ := ih st2 st' h hI2
          refine ⟨hI', ⟨?_, ?_⟩, ?_⟩
          · intro x hx
            refine hM2'.1 x (hM12.1 x ?_)
            rw [hvis1]
            exact hx
          · intro x hx
            exact hM2'.2 x (hM12.2 x (hlinks1 x hx))
          · intro x hx
            rcases hP' x hx with hx2 | hx2
            · rcases hP12 x hx2 with hx3 | hx3 | hx3
              · refine Or.inl ?_
                rw [← hvis1]
                exact hx3
              · exact Or.inr (hM2'.2 x (hM12.2 x (hx3 ▸ hl1)))
              · exact Or.inr (hM2'.2 x hx3)
            · exact Or.inr hx2

/-- The no-op outcome of an admission-check rejection satisfies the
step contract of `Scraper.scrape`. -/
theorem scrapeStep_refl (cfg : Cfg) (st : St) (url : Url) (hI : StInv cfg st) :
    StInv cfg st ∧ StMono st st ∧
    (∀ x ∈ st.visited, x ∈ st.visited ∨ x = url ∨ x ∈ st.all_links) ∧
    ((∀ x ∈ st.visited, x ∈ st.visited ∨ x ∈ st.all_links) ∨
     (∀ x ∈ st.visited, x ∈ st.visited ∨ x = url)) :=
  ⟨hI, ⟨fun _ hx => hx, fun _ hx => hx⟩, fun _ hx => Or.inl hx,
    Or.inl (fun _ hx => Or.inl hx)⟩

/-- The limit re-check and expansion tail of one `Scraper.scrape`
activation satisfies the loop contract. -/
theorem scrapeTail_inv (rec : St → Url → Option St) (cfg : Cfg)
    (links : List Url) (d maxD : Nat) (st4 st' : St) (hrec : RecOK cfg rec)
    (h : (if cfg.max_links ≤ st4.all_links.length then some st4
          else if d < maxD then scrapeLoop rec cfg st4 links
          else some st4) = some st')
    (hI4 : StInv cfg st4) :
    StInv cfg st' ∧ StMono st4 st' ∧
    (∀ x ∈ st'.visited, x ∈ st4.visited ∨ x ∈ st'.all_links) := by
  by_cases hlim : cfg.max_links ≤ st4.all_links.length
  · rw [if_pos hlim] at h
    obtain rfl : st4 = st' := Option.some.inj h
    exact ⟨hI4, ⟨fun _ hx => hx, fun _ hx => hx⟩, fun _ hx => Or.inl hx⟩
  · rw [if_neg hlim] at h
    by_cases hd : d < maxD
    · rw [if_pos hd] at h
      exact scrapeLoop_inv cfg rec hrec links st4 st' h hI4
    · rw [if_neg hd] at h
      obtain rfl : st4 = st' := Option.some.inj h
      exact ⟨hI4, ⟨fun _ hx => hx, fun _ hx => hx⟩, fun _ hx => Or.inl hx⟩

/-- One `Scraper.scrape` activation preserves the crawl invariant, only
grows the state, every newly visited URL is the processed URL itself or
is recorded in `all_links`, and — the key accounting fact — either all
new visits are recorded in `all_links` (the fetch succeeded, so the URL
itself was recorded too) or the only new visit is the URL itself (the
fetch failed before any expansion). -/
theorem scrapeBody_inv (rec : St → Url → Option St) (env : Env) (cfg : Cfg)
    (st : St) (url : Url) (d maxD : Nat) (fsd : Bool) (kw : Option (List String))
    (st' : St) (hrec : RecOK cfg rec)
    (h : scrapeBody rec env cfg st url d maxD fsd kw = some st')
    (hI : StInv cfg st) :
    StInv cfg st' ∧ StMono st st' ∧
    (∀ x ∈ st'.visited, x ∈ st.visited ∨ x = url ∨ x ∈ st'.all_links) ∧
    ((∀ x ∈ st'.visited, x ∈ st.visited ∨ x ∈ st'.all_links) ∨
     (∀ x ∈ st'.visited, x ∈ st.visited ∨ x = url)) := by
  unfold scrapeBody at h
  by_cases h1 : ¬ env.validUrl url = true
  · rw [if_pos h1] at h
    obtain rfl := Option.some.inj h
    exact scrapeStep_refl cfg _ url hI
  · rw [if_neg h1] at h
    by_cases h2 : url ∈ st.visited
    · rw [if_pos h2] at h
      obtain rfl := Option.some.inj h
      exact scrapeStep_refl cfg _ url hI
    · rw [if_neg h2] at h
      by_cases h3 : cfg.max_links ≤ st.all_links.length
      · rw [if_pos h3] at h
        obtain rfl := Option.some.inj h
        exact scrapeStep_refl cfg _ url hI
      · rw [if_neg h3] at h
        dsimp only at h
        have hfld := fetchPage_fields env cfg { st with visited := st.visited ++ [url] } url
        rcases hf : fetchPage env cfg { st with visited := st.visited ++ [url] } url with ⟨st2, res⟩
        rw [hf] at h hfld
        simp only at hfld
        obtain ⟨hfv, hfa, hft, hfp, hfg⟩ := hfld
        have hI2 : StInv cfg st2 := by
          refine ⟨?_, ?_, ?_, ?_, ?_⟩
          · rw [hfv]
            exact nodup_append_one hI.1 h2
          · rw [hfa]
            exact hI.2.1
          · rw [hfa]
            exact hI.2.2.1
          · rcases hfg with hg | hg
            · rw [hg]
              exact hI.2.2.2.1
            · rw [hg]
              exact nodup_append_one hI.2.2.2.1 (fun hmem => h2 (hI.2.2.2.2 url hmem))
          · intro g hg2
            rw [hfv]
            rcases hfg with hg | hg
            · rw [hg] at hg2
              exact List.mem_append_left _ (hI.2.2.2.2 g hg2)
            · rw [hg] at hg2
              rcases List.mem_append.mp hg2 with hgl | hgr
              · exact List.mem_append_left _ (hI.2.2.2.2 g hgl)
              · simp only [List.mem_singleton] at hgr
                subst hgr
                simp
        have hvis2 : ∀ x ∈ st2.visited, x ∈ st.visited ∨ x = url := by
          intro x hx
          rw [hfv] at hx
          rcases List.mem_append.mp hx with hxx | hxx
          · exact Or.inl hxx
          · exact Or.inr (by simpa using hxx)
        have hmono2 : StMono st st2 := by
          constructor
          · intro x hx
            rw [hfv]
            exact List.mem_append_left _ hx
          · intro x hx
            rw [hfa]
            exact hx
        cases res with
        | none =>
          obtain rfl := Option.some.inj h
          exact ⟨hI2, hmono2,
            fun x hx => (hvis2 x hx).imp id Or.inl,
            Or.inr hvis2⟩
        | some html =>
          dsimp only at h
          by_cases hh : html = ""
          · rw [if_pos hh] at h
            obtain rfl := Option.some.inj h
            exact ⟨hI2, hmono2,
              fun x hx => (hvis2 x hx).imp id Or.inl,
              Or.inr hvis2⟩
          · rw [if_neg hh] at h
            set st3 : St := { st2 with
              text_content := dictInsert st2.text_content url (env.extractText url html kw) }
              with hst3
            set st4 : St := if url ∈ st3.all_links then st3
              else { st3 with all_links := st3.all_links ++ [url] } with hst4
            have h3v : st3.visited = st2.visited := by rw [hst3]
            have h3a : st3.all_links = st2.all_links := by rw [hst3]
            have h3g : st3.gets = st2.gets := by rw [hst3]
            have h4v : st4.visited = st2.visited := by
              rw [hst4]
              split <;> simp [h3v]
            have h4g : st4.gets = st2.gets := by
              rw [hst4]
              split <;> simp [h3g]
            have h4mem : url ∈ st4.all_links := by
              rw [hst4]
              split
              · next hmem => exact hmem
              · simp
            have h4links : ∀ x ∈ st.all_links, x ∈ st4.all_links := by
              intro x hx
              rw [hst4]
              split
              · rw [h3a, hfa]
                exact hx
              · refine List.mem_append_left _ ?_
                rw [h3a, hfa]
                exact hx
            have hI4 : StInv cfg st4 := by
              rw [hst4]
              split
              · next hmem =>
                exact ⟨by rw [h3v]; exact hI2.1, by rw [h3a]; exact hI2.2.1,
                  by rw [h3a]; exact hI2.2.2.1, by rw [h3g]; exact hI2.2.2.2.1,
                  by intro g hg; rw [h3v]; exact hI2.2.2.2.2 g (by rw [← h3g]; exact hg)⟩
              · next hmem =>
                refine ⟨by simp only [h3v]; exact hI2.1, ?_, ?_, ?_, ?_⟩
                · simp only
                  refine nodup_append_one (by rw [h3a]; exact hI2.2.1) hmem
                · simp only [List.length_append, List.length_singleton, h3a, hfa]
                  have : st.all_links.length < cfg.max_links := Nat.lt_of_not_le h3
                  omega
                · simp only [h3g]
                  exact hI2.2.2.2.1
                · intro g hg
                  simp only [h3v]
                  simp only [h3g] at hg
                  exact hI2.2.2.2.2 g hg
            obtain ⟨hI', hM4', hP'⟩ := scrapeTail_inv rec cfg
              (extractLinks env url (env.anchors html) fsd) d maxD st4 st' hrec h hI4
            refine ⟨hI', ⟨?_, ?_⟩, ?_, Or.inl ?_⟩
            · intro x hx
              refine hM4'.1 x ?_
              rw [h4v, hfv]
              exact List.mem_append_left _ hx
            · intro x hx
              exact hM4'.2 x (h4links x hx)
            · intro x hx
              rcases hP' x hx with hx4 | hx4
              · rw [h4v] at hx4
                rcases hvis2 x hx4 with hxx | hxx
                · exact Or.inl hxx
                · exact Or.inr (Or.inl hxx)
              · exact Or.inr (Or.inr hx4)
            · intro x hx
              rcases hP' x hx with hx4 | hx4
              · rw [h4v] at hx4
                rcases hvis2 x hx4 with hxx | hxx
                · exact Or.inl hxx
                · subst hxx
                  exact Or.inr (hM4'.2 _ h4mem)
              · exact Or.inr hx4

/-- Every recursive activation of `Scraper.scrape` obeys the step
contract, at every fuel level and depth. -/
theorem scrapeF_inv (env : Env) (cfg : Cfg) (maxD : Nat) (fsd : Bool)
    (kw : Option (List String)) :
    ∀ (fuel d : Nat), RecOK cfg (fun s l => scrapeF env cfg fuel s l d maxD fsd kw) := by
  intro fuel
  induction fuel with
  | zero =>
    intro d s l s' hs
    exact absurd hs (by simp [scrapeF])
  | succ n ih =>
    intro d s l s' hs hI
    have hb : scrapeBody (fun s2 l2 => scrapeF env cfg n s2 l2 (d + 1) maxD fsd kw)
        env cfg s l d maxD fsd kw = some s' := hs
    obtain ⟨a, b, c, _⟩ := scrapeBody_inv _ env cfg s l d maxD fsd kw s' (ih (d + 1)) hb hI
    exact ⟨a, b, c⟩

/-- C1, base engine: a completed crawl from a fresh state visits at
most `max_links` pages.  The limit is re-checked at the start of every
activation (before every fetch), and every visited URL except a seed
whose own fetch failed occupies a slot of the duplicate-free,
length-bounded `all_links` list. -/
theorem scrape_visited_bounded (env : Env) (cfg : Cfg) (h1 : 1 ≤ cfg.max_links)
    (fuel : Nat) (seed : Url) (maxD : Nat) (fsd : Bool) (kw : Option (List String))
    (st' : St) (h : scrapeF env cfg fuel initSt seed 0 maxD fsd kw = some st') :
    st'.visited.length ≤ cfg.max_links := by
  have hInit : StInv cfg initSt := by
    refine ⟨List.nodup_nil, List.nodup_nil, ?_, List.nodup_nil, ?_⟩
    · simp [initSt]
    · intro g hg
      simp [initSt] at hg
  cases fuel with
  | zero => exact absurd h (by simp [scrapeF])
  | succ n =>
    have hb : scrapeBody (fun s2 l2 => scrapeF env cfg n s2 l2 (0 + 1) maxD fsd kw)
        env cfg initSt seed 0 maxD fsd kw = some st' := h
    obtain ⟨hI', _, _, hP5⟩ := scrapeBody_inv _ env cfg initSt seed 0 maxD fsd kw st'
      (scrapeF_inv env cfg maxD fsd kw n (0 + 1)) hb hInit
    rcases hP5 with hall | hseed
    · have hsub : ∀ x ∈ st'.visited, x ∈ st'.all_links := by
        intro x hx
        rcases hall x hx with hxx | hxx
        · simp [initSt] at hxx
        · exact hxx
      exact le_trans (length_le_of_nodup_subset hI'.1 hsub) hI'.2.2.1
    · have hsub : ∀ x ∈ st'.visited, x ∈ [seed] := by
        intro x hx
        rcases hseed x hx with hxx | hxx
        · simp [initSt] at hxx
        · simp [hxx]
      exact le_trans (length_le_of_nodup_subset hI'.1 hsub) h1

/-- The documentation loop preserves the visited-set bound. -/
theorem docLoop_len (cfg : Cfg) (rec : St → Url → Option St) (hrec : DocRecOK cfg rec) :
    ∀ (links : List Url) (st st' : St),
      docLoop rec cfg st links = some st' →
      st.visited.length ≤ cfg.max_links → st'.visited.length ≤ cfg.max_links := by
  intro links
  induction links with
  | nil =>
    intro st st' h hlen
    obtain rfl := Option.some.inj h
    exact hlen
  | cons l rest ih =>
    intro st st' h hlen
    simp only [docLoop] at h
    by_cases hlim : cfg.max_links ≤ st.visited.length
    · rw [if_pos hlim] at h
      obtain rfl := Option.some.inj h
      exact hlen
    · rw [if_neg hlim] at h
      rcases hr : rec st l with _ | st2
      · rw [hr] at h
        exact absurd h (by simp)
      · rw [hr] at h
        exact ih st2 st' h (hrec st l st2 hr hlen)

/-- One `DocScraper.scrape` activation preserves the visited-set bound:
the limit is checked before the fetch, and at most one URL is added. -/
theorem docScrapeBody_len (rec : St → Url → Option St) (env : Env) (cfg : Cfg)
    (st : St) (url : Url) (d maxD : Nat) (fsd : Bool) (st' : St)
    (hrec : DocRecOK cfg rec)
    (h : docScrapeBody rec env cfg st url d maxD fsd = some st')
    (hlen : st.visited.length ≤ cfg.max_links) :
    st'.visited.length ≤ cfg.max_links := by
  unfold docScrapeBody at h
  by_cases hlim : cfg.max_links ≤ st.visited.length
  · rw [if_pos hlim] at h
    obtain rfl := Option.some.inj h
    exact hlen
  · rw [if_neg hlim] at h
    by_cases h2 : url ∈ st.visited
    · rw [if_pos h2] at h
      obtain rfl := Option.some.inj h
      exact hlen
    · rw [if_neg h2] at h
      by_cases h3 : ¬ env.validUrl url = true
      · rw [if_pos h3] at h
        obtain rfl := Option.some.inj h
        exact hlen
      · rw [if_neg h3] at h
        have hffld := fetchPage_fields env cfg st url
        rcases hf : fetchPage env cfg st url with ⟨st2, res⟩
        rw [hf] at h hffld
        simp only at hffld
        obtain ⟨hfv, _, _, _, _⟩ := hffld
        cases res with
        | none =>
          obtain rfl := Option.some.inj h
          rw [hfv]
          exact hlen
        | some html =>
          dsimp only at h
          by_cases hh : html = ""
          · rw [if_pos hh] at h
            obtain rfl := Option.some.inj h
            rw [hfv]
            exact hlen
          · rw [if_neg hh] at h
            have hsfld := scrapeSinglePage_fields env cfg st2 url
            rcases hsp : scrapeSinglePage env cfg st2 url with ⟨st3, pd⟩
            rw [hsp] at h hsfld
            simp only at hsfld
            obtain ⟨hsv, _, _⟩ := hsfld
            dsimp only at h
            have hlen4 : (st3.visited ++ [url]).length ≤ cfg.max_links := by
              simp only [List.length_append, List.length_singleton, hsv, hfv]
              have := Nat.lt_of_not_le hlim
              omega
            by_cases hd : maxD ≤ d
            · rw [if_pos hd] at h
              obtain rfl := Option.some.inj h
              exact hlen4
            · rw [if_neg hd] at h
              refine docLoop_len cfg rec hrec _ _ st' h ?_
              exact hlen4

/-- A fresh engine state satisfies the crawl invariant. -/
theorem initSt_inv (cfg : Cfg) : StInv cfg initSt := by
  refine ⟨List.nodup_nil, List.nodup_nil, ?_, List.nodup_nil, ?_⟩
  · simp [initSt]
  · intro g hg
    simp [initSt] at hg

/-- Every recursive activation of `DocScraper.scrape` preserves the
visited-set bound, at every fuel level and depth. -/
theorem docScrapeF_len (env : Env) (cfg : Cfg) (maxD : Nat) (fsd : Bool)
    (kw : Option (List String)) :
    ∀ (fuel d : Nat), DocRecOK cfg (fun s l => docScrapeF env cfg fuel s l d maxD fsd kw) := by
  intro fuel
  induction fuel with
  | zero =>
    intro d s l s' hs
    exact absurd hs (by simp [docScrapeF])
  | succ n ih =>
    intro d s l s' hs hlen
    exact docScrapeBody_len _ env cfg s l d maxD fsd s' (ih (d + 1)) hs hlen

/-- C1: every completed crawl from a fresh engine state (any seed, any
network behaviour, `max pages ≥ 1`) visits at most `max_links` pages,
for the base engine and the documentation engine alike; the admission
check runs at the top of every activation, before every fetch. -/
theorem crawl_visited_bounded (env : Env) (cfg : Cfg) (h1 : 1 ≤ cfg.max_links) :
    (∀ (fuel : Nat) (seed : Url) (maxD : Nat) (fsd : Bool) (kw : Option (List String)) (st' : St),
      scrapeF env cfg fuel initSt seed 0 maxD fsd kw = some st' →
      st'.visited.length ≤ cfg.max_links) ∧
    (∀ (fuel : Nat) (seed : Url) (maxD : Nat) (fsd : Bool) (kw : Option (List String)) (st' : St),
      docScrapeF env cfg fuel initSt seed 0 maxD fsd kw = some st' →
      st'.visited.length ≤ cfg.max_links) := by
  constructor
  · intro fuel seed maxD fsd kw st' h
    exact scrape_visited_bounded env cfg h1 fuel seed maxD fsd kw st' h
  · intro fuel seed maxD fsd kw st' h
    exact docScrapeF_len env cfg maxD fsd kw fuel 0 initSt seed st' h (by simp [initSt])

/-- C2 (amended): in a completed crawl of the base engine from a fresh
state, every URL is GET-requested at most once — the visited set is
checked before fetching and the URL is recorded as visited before its
fetch, so no URL is ever requested twice.  (The documentation engine
does not have this property: see the counterexample.) -/
theorem scrape_fetch_at_most_once (env : Env) (cfg : Cfg)
    (fuel : Nat) (seed : Url) (maxD : Nat) (fsd : Bool) (kw : Option (List String))
    (st' : St) (h : scrapeF env cfg fuel initSt seed 0 maxD fsd kw = some st') :
    ∀ u : Url, st'.gets.count u ≤ 1 := by
  obtain ⟨hI', _, _⟩ := scrapeF_inv env cfg maxD fsd kw fuel 0 initSt seed st' h
    (initSt_inv cfg)
  intro u
  exact List.nodup_iff_count_le_one.mp hI'.2.2.2.1 u

/-- C1 witness: a concrete completed crawl respects the page bound. -/
theorem crawl_visited_bounded_witness :
    1 ≤ (5 : Nat) ∧ runS.visited.length ≤ 5 :=
  ⟨by decide,
   (crawl_visited_bounded envA ⟨5, false⟩ (by decide)).1 3 uA 1 false none runS (by rfl)⟩

/-- C2 counterexample: the documentation engine issues two HTTP GETs
for the very first page of a crawl — one in `scrape` and a second one
inside `scrape_single_page` — so a URL is not fetched at most once. -/
theorem doc_double_fetch_counterexample :
    (docScrapeF envA ⟨5, false⟩ 3 initSt uA 0 1 true none).map
      (fun s => s.gets.count uA) = some 2 ∧ ¬ (2 ≤ 1) :=
  ⟨rfl, by decide⟩

/-- C2 (amended) witness: in a concrete base-engine crawl the seed is
requested at most once. -/
theorem scrape_fetch_at_most_once_witness : runS.gets.count uA ≤ 1 :=
  scrape_fetch_at_most_once envA ⟨5, false⟩ 3 uA 1 false none runS (by rfl) uA

/-- C3 witness: with fuel exceeding the depth budget, both engines
complete on a concrete input. -/
theorem scrape_terminates_witness :
    (1 : Nat) - 0 < 2 ∧
    ((scrapeF envA ⟨5, false⟩ 2 initSt uA 0 1 false none).isSome ∧
     (docScrapeF envA ⟨5, false⟩ 2 initSt uA 0 1 false none).isSome) :=
  ⟨by decide, scrape_terminates envA ⟨5, false⟩ 1 false none 2 0 (by decide) initSt uA⟩

/-- C4 counterexample: the anchor `href="#intro"` on the page
`https://example.com/page` resolves to `https://example.com/page#intro`
— a pure same-page anchor (same scheme, host and path as the base,
fragment only) — and `extract_links` keeps it: only URLs ending in a
bare `#` are dropped. -/
theorem samepage_anchor_counterexample :
    extractLinks envA base4 [Href.frag "intro"] false = [urlIntro] ∧
    urlIntro.scheme = base4.scheme ∧ urlIntro.netloc = base4.netloc ∧
    urlIntro.path = base4.path ∧ urlIntro.fragment ≠ none :=
  ⟨rfl, rfl, rfl, rfl, by decide⟩

/-- C4 (amended) witness: a concrete extracted link has its query
stripped. -/
theorem extractLinks_spec_witness :
    urlIntro.query = none ∧ (false = true → urlIntro.netloc = base4.netloc) :=
  (extractLinks_spec envA base4 [Href.frag "intro"] false).2.2.2 urlIntro (by decide)

/-- C5 witness: with robots compliance disabled the gate allows a
concrete URL. -/
theorem canFetch_spec_witness : (canFetch envA ⟨5, false⟩ initSt uA).2 = true :=
  (canFetch_spec envA ⟨5, false⟩ initSt uA).1 rfl

/-- C6 counterexample: a `304 Not Modified` response — not a 2xx — is
counted as a success (`raise_for_status` only raises for 4xx/5xx), so
"any non-2xx increments the failure counter" is false. -/
theorem fetch_non2xx_counterexample :
    env6.net uA = NetResult.resp 304 "" ∧
    ((304 : Nat) < 200 ∨ 300 ≤ (304 : Nat)) ∧
    (fetchPage env6 ⟨5, false⟩ initSt uA).1.failure_count = 0 ∧
    (fetchPage env6 ⟨5, false⟩ initSt uA).1.success_count = 1 ∧
    (fetchPage env6 ⟨5, false⟩ initSt uA).2 = some "" :=
  ⟨rfl, by decide, rfl, rfl, rfl⟩

/-- C6 (amended) witness: a concrete 200 response returns the body and
bumps the success counter. -/
theorem fetchPage_spec_witness :
    (fetchPage envA ⟨5, false⟩ initSt uA).2 = some "body" ∧
    (fetchPage envA ⟨5, false⟩ initSt uA).1.success_count = initSt.success_count + 1 ∧
    (fetchPage envA ⟨5, false⟩ initSt uA).1.failure_count = initSt.failure_count :=
  (fetchPage_spec envA ⟨5, false⟩ initSt uA (by rfl)).2.2.2 200 "body" rfl (by decide)

/-- C7 witness: a concrete page with an `<h2>Intro</h2>` heading yields
the `{level 2, text "Intro"}` entry. -/
theorem extractHeadings_spec_witness :
    Heading.mk 2 "Intro" "" ∈ extractHeadings [Tag.mk "h2" "Intro" none] :=
  extractHeadings_spec.1 [Tag.mk "h2" "Intro" none] none (by simp)

/-- C8 counterexample: a crawl configured with `max pages = 0 < 1`
completes normally — `some` result, untouched state, no failure count,
no error of any kind — so no crawl-level failure is surfaced for the
misconfiguration. -/
theorem scrape_no_failure_counterexample :
    (0 : Nat) < 1 ∧
    scrapeF envA ⟨0, false⟩ 5 initSt uA 0 1 false none = some initSt ∧
    (scrapeF envA ⟨0, false⟩ 5 initSt uA 0 1 false none).map
      (fun s => (s.visited.length, s.failure_count, s.success_count)) = some (0, 0, 0) :=
  ⟨by decide, rfl, rfl⟩

/-- C8 (amended) witness: both engines return the state unchanged under
`max_links = 0` on a concrete input. -/
theorem scrape_no_validation_witness :
    scrapeF envA ⟨0, false⟩ 3 initSt uA 0 1 false none = some initSt ∧
    docScrapeF envA ⟨0, false⟩ 3 initSt uA 0 1 false none = some initSt :=
  scrape_no_validation envA ⟨0, false⟩ rfl 2 initSt uA 0 1 false none

/-- C9 counterexample: in the `env9` world, the crawl with robots
compliance disabled visits 3 pages while the identical crawl with
robots compliance enabled visits 5 — denying one URL reroutes the
traversal so another page is first reached shallow enough to be
expanded.  Politeness does not monotonically shrink the visited set. -/
theorem robots_monotonicity_counterexample :
    (scrapeF env9 ⟨10, false⟩ 5 initSt uS 0 2 false none).map
      (fun s => s.visited.length) = some 3 ∧
    (scrapeF env9 ⟨10, true⟩ 5 initSt uS 0 2 false none).map
      (fun s => s.visited.length) = some 5 ∧
    (3 : Nat) < 5 :=
  ⟨rfl, rfl, by decide⟩

/-- C9 (amended) witness: a concrete fetch that succeeds with robots
compliance enabled also succeeds with it disabled. -/
theorem fetchPage_robots_mono_witness :
    (fetchPage env9 ⟨10, false⟩ initSt (mkU "C")).2 = some "C" :=
  fetchPage_robots_mono env9 ⟨10, true⟩ initSt (mkU "C") "C" (by rfl)
